import Mathlib

/-!
Verification development for the Student Grade Management System
(`grade_manager.py`, in its two variants: the repository-root file and the
`waterfall/code` file).  The data model and the operations are shallowly
embedded: Python floats become an explicit four-case value type (finite
rational, NaN, +inf, -inf), Python dicts become insertion-ordered
association lists, raised exceptions become explicit error values, and each
mutating method returns the post-call state together with an optional error
(a raise in this program always happens before any mutation of the receiver,
except inside `load_json`, which is modelled step by step).
-/

set_option maxHeartbeats 1000000

/-- Model of a Python float: a finite value (idealised as a rational), NaN,
or one of the two infinities.  Non-finite values matter here because
`add_grade` only checks `isinstance(grade, (int, float))`, which NaN and the
infinities pass. -/
inductive PyFloat where
  | finite (q : ℚ)
  | nan
  | inf
  | ninf
deriving DecidableEq

/-- Whether the float is a finite real number. -/
def PyFloat.isFinite : PyFloat → Bool
  | .finite _ => true
  | _ => false

/-- The rational value of a finite float (junk value 0 on non-finite input). -/
def PyFloat.toQ : PyFloat → ℚ
  | .finite q => q
  | _ => 0

/-- IEEE-style addition on the float model: NaN is absorbing, opposite
infinities give NaN, an infinity absorbs finite values. -/
def pyAdd : PyFloat → PyFloat → PyFloat
  | .nan, _ => .nan
  | _, .nan => .nan
  | .finite a, .finite b => .finite (a + b)
  | .inf, .ninf => .nan
  | .ninf, .inf => .nan
  | .inf, _ => .inf
  | .ninf, _ => .ninf
  | .finite _, .inf => .inf
  | .finite _, .ninf => .ninf

/-- Python's `sum` on a list of floats: left fold of `+` starting from 0. -/
def pySum (l : List PyFloat) : PyFloat :=
  l.foldl pyAdd (.finite 0)

/-- Division of a float by a positive integer count (used for averages;
`len` is always positive at the call sites). -/
def pyDivNat : PyFloat → Nat → PyFloat
  | .finite q, n => .finite (q / n)
  | .nan, _ => .nan
  | .inf, _ => .inf
  | .ninf, _ => .ninf

/-- IEEE-style comparison `x >= c` against a finite constant: false for NaN
and -inf, true for +inf. -/
def pyGe : PyFloat → ℚ → Bool
  | .finite q, c => decide (c ≤ q)
  | .nan, _ => false
  | .inf, _ => true
  | .ninf, _ => false

/-- Model of the Python values a caller can pass to `add_grade`: ints, bools
(`bool` is a subclass of `int` in Python, so `isinstance(True, int)` holds),
floats, strings, `None`, and a catch-all for the remaining (list/dict)
values, which the numeric check rejects uniformly. -/
inductive PyVal where
  | vint (n : ℤ)
  | vbool (b : Bool)
  | vfloat (f : PyFloat)
  | vstr (s : String)
  | vnone
  | vother
deriving DecidableEq

/-- `isinstance(v, (int, float))` followed by `float(v)`: the float value a
numeric argument converts to, or `none` when the `isinstance` check fails. -/
def pyNumeric : PyVal → Option PyFloat
  | .vint n => some (.finite n)
  | .vbool b => some (.finite (if b then 1 else 0))
  | .vfloat f => some f
  | _ => none

/-- Model of a parsed JSON value as `json.load` returns it (object fields
keep their textual order; Python dicts preserve insertion order). -/
inductive Json where
  | jnum (f : PyFloat)
  | jstr (s : String)
  | jbool (b : Bool)
  | jnull
  | jarr (xs : List Json)
  | jobj (fields : List (String × Json))

/-- The distinct failure exits of the embedded program: the `ValueError`
raise sites, keyed by the data they interpolate into the message, plus the
exception kinds that file loading can surface (`OSError` from `open`,
`JSONDecodeError` from `json.load`, `KeyError`/`TypeError`/`AttributeError`
from indexing parsed data).  `typeError` also stands for the one place the
model is narrower than Python: the embedded `from_dict` expects the stored
name/id field to be a JSON string, where Python would store any value. -/
inductive GMError where
  | invalidInput
  | duplicateEnrollment (student course : String)
  | notEnrolled (student course : String)
  | duplicateStudent (key : String)
  | studentNotFound (key : String)
  | osError
  | jsonDecodeError
  | keyError (k : String)
  | typeError
  | attributeError
deriving DecidableEq

/-! Python `dict` model: an association list with unique keys, first-match
lookup, in-place update of an existing key, append of a fresh key. -/

/-- `d[k]` / `d.get(k)`: first binding of `k`. -/
def dictGet? {α : Type} (l : List (String × α)) (k : String) : Option α :=
  match l with
  | [] => none
  | p :: rest => if p.1 = k then some p.2 else dictGet? rest k

/-- `d[k] = v`: replace the binding in place when the key exists, append it
otherwise. -/
def dictInsert {α : Type} (l : List (String × α)) (k : String) (v : α) :
    List (String × α) :=
  match l with
  | [] => [(k, v)]
  | p :: rest => if p.1 = k then (k, v) :: rest else p :: dictInsert rest k v

/-- `del d[k]`: drop the (unique) binding of `k`. -/
def dictRemove {α : Type} (l : List (String × α)) (k : String) :
    List (String × α) :=
  match l with
  | [] => []
  | p :: rest => if p.1 = k then rest else p :: dictRemove rest k

/-- The keys of the dict, in insertion order. -/
def dictKeys {α : Type} (l : List (String × α)) : List String :=
  l.map Prod.fst

/-- Python's `<` on strings, as `sorted` uses it: lexicographic comparison
of the code-point sequences (Lean's built-in `String` order is the same
relation, but is not kernel-computable, so the model spells it out). -/
def strLtb : List Char → List Char → Bool
  | [], [] => false
  | [], _ :: _ => true
  | _ :: _, [] => false
  | a :: as, b :: bs =>
    if a < b then true
    else if b < a then false
    else strLtb as bs

/-- Python's `a <= b` on strings: not `b < a`. -/
def pyStrLe (a b : String) : Prop :=
  strLtb b.data a.data = false

instance : DecidableRel pyStrLe :=
  fun a b => inferInstanceAs (Decidable (strLtb b.data a.data = false))

/-- Python's tuple comparison on dict items, as `sorted(d.items())` uses it:
with unique keys it only ever compares the keys. -/
def pyPairLe {α : Type} (a b : String × α) : Prop :=
  pyStrLe a.1 b.1

instance {α : Type} : DecidableRel (@pyPairLe α) :=
  fun a b => inferInstanceAs (Decidable (pyStrLe a.1 b.1))

/-! ## Class `Course` (identical in both source variants) -/

/-- A course: a name and the ordered list of grades recorded for it. -/
structure Course where
  name : String
  grades : List PyFloat
deriving DecidableEq

/-- `Course(name)`. -/
def Course.mkNew (name : String) : Course := ⟨name, []⟩

/-- `Course.add_grade(grade)`: raise `ValueError("Grade must be numeric.")`
unless `isinstance(grade, (int, float))`, else append `float(grade)`.  The
result pairs the post-call course with the raised error, if any. -/
def Course.add_grade (c : Course) (v : PyVal) : Course × Option GMError :=
  match pyNumeric v with
  | some f => ({ c with grades := c.grades ++ [f] }, none)
  | none => (c, some .invalidInput)

/-- `Course.remove_all_grades()`. -/
def Course.remove_all_grades (c : Course) : Course :=
  { c with grades := [] }

/-- `Course.average()`: `None` when `grades` is empty, else
`sum(grades) / len(grades)`. -/
def Course.average (c : Course) : Option PyFloat :=
  if c.grades.isEmpty then none
  else some (pyDivNat (pySum c.grades) c.grades.length)

/-- `Course.to_dict()`: the JSON array of the grades. -/
def Course.to_dict (c : Course) : Json :=
  .jarr (c.grades.map .jnum)

/-- Python iteration over a parsed JSON value, as `for g in grades` performs
it: an array yields its elements, a string its one-character substrings, an
object its keys; numbers, booleans and null are not iterable
(`TypeError`). -/
def jsonIterate : Json → Except GMError (List PyVal)
  | .jarr xs => .ok (xs.map fun g =>
      match g with
      | .jnum f => .vfloat f
      | .jstr s => .vstr s
      | .jbool b => .vbool b
      | .jnull => .vnone
      | .jarr _ => .vother
      | .jobj _ => .vother)
  | .jstr s => .ok (s.data.map fun ch => .vstr (String.mk [ch]))
  | .jobj fs => .ok (fs.map fun p => .vstr p.1)
  | _ => .error .typeError

/-- The loop body of `Course.from_list`: feed each value through
`add_grade`, aborting at the first raise (the partially built course is a
local that the raise discards). -/
def addGradesLoop (c : Course) : List PyVal → Except GMError Course
  | [] => .ok c
  | v :: rest =>
    match Course.add_grade c v with
    | (c', none) => addGradesLoop c' rest
    | (_, some e) => .error e

/-- `Course.from_list(name, grades)`: build `Course(name)` and `add_grade`
each element of the parsed JSON value in order. -/
def Course.from_list (name : String) (grades : Json) : Except GMError Course :=
  match jsonIterate grades with
  | .ok vs => addGradesLoop (Course.mkNew name) vs
  | .error e => .error e

/-! ## Class `Student` (same fields in both variants; the root file
constructs `Student(student_id, name)`, the waterfall file
`Student(name, student_id)` — the field set is identical) -/

/-- A student: id, display name, and the ordered dict of courses. -/
structure Student where
  student_id : String
  name : String
  courses : List (String × Course)
deriving DecidableEq

/-- `Student.enroll_course(course_name)`: raise when already enrolled, else
bind a fresh empty `Course(course_name)`. -/
def Student.enroll_course (s : Student) (course_name : String) :
    Student × Option GMError :=
  match dictGet? s.courses course_name with
  | some _ => (s, some (.duplicateEnrollment s.name course_name))
  | none =>
      ({ s with courses := dictInsert s.courses course_name (Course.mkNew course_name) },
       none)

/-- `Student.remove_course(course_name)`: raise when not enrolled, else
delete the binding. -/
def Student.remove_course (s : Student) (course_name : String) :
    Student × Option GMError :=
  match dictGet? s.courses course_name with
  | none => (s, some (.notEnrolled s.name course_name))
  | some _ => ({ s with courses := dictRemove s.courses course_name }, none)

/-- `Student.add_grade(course_name, grade)`: raise `NotEnrolled` when the
course is absent (checked before delegating), else delegate to the course's
`add_grade` and store the updated course back in place. -/
def Student.add_grade (s : Student) (course_name : String) (v : PyVal) :
    Student × Option GMError :=
  match dictGet? s.courses course_name with
  | none => (s, some (.notEnrolled s.name course_name))
  | some c =>
      match Course.add_grade c v with
      | (c', e) => ({ s with courses := dictInsert s.courses course_name c' }, e)

/-- `Student.course_average(course_name)`: raise when not enrolled, else
delegate to `Course.average`. -/
def Student.course_average (s : Student) (course_name : String) :
    Except GMError (Option PyFloat) :=
  match dictGet? s.courses course_name with
  | none => .error (.notEnrolled s.name course_name)
  | some c => .ok (Course.average c)

namespace Root

/-- Root variant `Student.gpa()`: the mean of the course averages, skipping
courses whose `average()` is `None`; `None` when no course has grades. -/
def gpa (s : Student) : Option PyFloat :=
  let avgs := (s.courses.map Prod.snd).filterMap Course.average
  if avgs.isEmpty then none
  else some (pyDivNat (pySum avgs) avgs.length)

/-- Root variant `Student.to_dict()`: `{"name": ..., "courses": {...}}`. -/
def student_to_dict (s : Student) : Json :=
  .jobj [("name", .jstr s.name),
         ("courses", .jobj (s.courses.map fun p => (p.1, Course.to_dict p.2)))]

end Root

namespace Waterfall

/-- Waterfall variant `Student.gpa()`: map each defined course average to a
grade point on the fixed 4.0 scale and average the points; `None` when no
course has grades. -/
def gradePoint (avg : PyFloat) : PyFloat :=
  if pyGe avg 90 then .finite 4
  else if pyGe avg 80 then .finite 3
  else if pyGe avg 70 then .finite 2
  else if pyGe avg 60 then .finite 1
  else .finite 0

/-- Waterfall variant `Student.gpa()`: collect `gradePoint` of each
non-`None` course average, then mean; `None` when the list is empty. -/
def gpa (s : Student) : Option PyFloat :=
  let pts := (s.courses.map Prod.snd).filterMap fun c =>
    (Course.average c).map gradePoint
  if pts.isEmpty then none
  else some (pyDivNat (pySum pts) pts.length)

/-- Waterfall variant `Student.to_dict()`:
`{"student_id": ..., "courses": {...}}`. -/
def student_to_dict (s : Student) : Json :=
  .jobj [("student_id", .jstr s.student_id),
         ("courses", .jobj (s.courses.map fun p => (p.1, Course.to_dict p.2)))]

end Waterfall

/-- The courses loop shared by both `Student.from_dict` variants:
`for cname, grades in data.get("courses", {}).items():
   s.courses[cname] = Course.from_list(cname, grades)`,
aborting at the first raise (with the student local discarded). -/
def coursesLoop (s : Student) : List (String × Json) → Except GMError Student
  | [] => .ok s
  | (cname, grades) :: rest =>
    match Course.from_list cname grades with
    | .ok c => coursesLoop { s with courses := dictInsert s.courses cname c } rest
    | .error e => .error e

/-- `data.get(key, default)` on a parsed JSON value: `AttributeError` when
the value is not an object (no `.get` attribute). -/
def jsonGetDefault (data : Json) (key : String) (dflt : Json) :
    Except GMError Json :=
  match data with
  | .jobj fields => .ok ((dictGet? fields key).getD dflt)
  | _ => .error .attributeError

/-- `data[key]` on a parsed JSON value: `KeyError` when the key is missing,
`TypeError` when the value is not an object. -/
def jsonIndex (data : Json) (key : String) : Except GMError Json :=
  match data with
  | .jobj fields =>
    match dictGet? fields key with
    | some v => .ok v
    | none => .error (.keyError key)
  | _ => .error .typeError

/-- `.items()` of a value expected to be a dict: `AttributeError`
otherwise. -/
def jsonItems (data : Json) : Except GMError (List (String × Json)) :=
  match data with
  | .jobj fields => .ok fields
  | _ => .error .attributeError

namespace Root

/-- Root variant `Student.from_dict(student_id, data)`:
`s = Student(student_id, data["name"])`, then rebuild each course from
`data.get("courses", {})`.  The stored name is required to be a JSON string
in the model (Python would store any value). -/
def student_from_dict (student_id : String) (data : Json) :
    Except GMError Student :=
  match jsonIndex data "name" with
  | .error e => .error e
  | .ok (.jstr nm) =>
      match jsonGetDefault data "courses" (.jobj []) with
      | .error e => .error e
      | .ok coursesJ =>
        match jsonItems coursesJ with
        | .error e => .error e
        | .ok items => coursesLoop ⟨student_id, nm, []⟩ items
  | .ok _ => .error .typeError

end Root

namespace Waterfall

/-- Waterfall variant `Student.from_dict(name, data)`:
`s = Student(name, data["student_id"])`, then rebuild each course from
`data.get("courses", {})`.  The stored id is required to be a JSON string in
the model (Python would store any value). -/
def student_from_dict (name : String) (data : Json) :
    Except GMError Student :=
  match jsonIndex data "student_id" with
  | .error e => .error e
  | .ok (.jstr sid) =>
      match jsonGetDefault data "courses" (.jobj []) with
      | .error e => .error e
      | .ok coursesJ =>
        match jsonItems coursesJ with
        | .error e => .error e
        | .ok items => coursesLoop ⟨sid, name, []⟩ items
  | .ok _ => .error .typeError

end Waterfall

/-! ## Class `GradeManager` -/

/-- The management layer: the dict from identity key to student (keyed by
`student_id` in the root variant, by `name` in the waterfall variant). -/
structure GradeManager where
  students : List (String × Student)
deriving DecidableEq

/-- `GradeManager()` starts empty. -/
def GradeManager.empty : GradeManager := ⟨[]⟩

namespace Root

/-- Root variant `GradeManager.add_student(student_id, name)`: raise on an
existing id, else bind `Student(student_id, name)`. -/
def add_student (gm : GradeManager) (student_id nm : String) :
    GradeManager × Option GMError :=
  match dictGet? gm.students student_id with
  | some _ => (gm, some (.duplicateStudent student_id))
  | none => (⟨dictInsert gm.students student_id ⟨student_id, nm, []⟩⟩, none)

end Root

namespace Waterfall

/-- Waterfall variant `GradeManager.add_student(name, student_id)`: raise on
an existing name, else bind `Student(name, student_id)`. -/
def add_student (gm : GradeManager) (nm student_id : String) :
    GradeManager × Option GMError :=
  match dictGet? gm.students nm with
  | some _ => (gm, some (.duplicateStudent nm))
  | none => (⟨dictInsert gm.students nm ⟨student_id, nm, []⟩⟩, none)

end Waterfall

/-- `GradeManager.remove_student(key)` (same code in both variants up to the
message): raise on a missing key, else delete the binding. -/
def GradeManager.remove_student (gm : GradeManager) (key : String) :
    GradeManager × Option GMError :=
  match dictGet? gm.students key with
  | none => (gm, some (.studentNotFound key))
  | some _ => (⟨dictRemove gm.students key⟩, none)

/-- `GradeManager._get_student(key)`: the student bound to `key`, or the
`StudentNotFound` raise. -/
def GradeManager.get_student (gm : GradeManager) (key : String) :
    Except GMError Student :=
  match dictGet? gm.students key with
  | none => .error (.studentNotFound key)
  | some s => .ok s

/-- `GradeManager.enroll_student_in_course(key, course_name)`: resolve the
student, delegate, store the updated student back in place. -/
def GradeManager.enroll_student_in_course (gm : GradeManager)
    (key course_name : String) : GradeManager × Option GMError :=
  match dictGet? gm.students key with
  | none => (gm, some (.studentNotFound key))
  | some s =>
      match s.enroll_course course_name with
      | (s', e) => (⟨dictInsert gm.students key s'⟩, e)

/-- `GradeManager.remove_course_from_student(key, course_name)`. -/
def GradeManager.remove_course_from_student (gm : GradeManager)
    (key course_name : String) : GradeManager × Option GMError :=
  match dictGet? gm.students key with
  | none => (gm, some (.studentNotFound key))
  | some s =>
      match s.remove_course course_name with
      | (s', e) => (⟨dictInsert gm.students key s'⟩, e)

/-- `GradeManager.add_grade(key, course_name, grade)`. -/
def GradeManager.add_grade (gm : GradeManager)
    (key course_name : String) (v : PyVal) : GradeManager × Option GMError :=
  match dictGet? gm.students key with
  | none => (gm, some (.studentNotFound key))
  | some s =>
      match s.add_grade course_name v with
      | (s', e) => (⟨dictInsert gm.students key s'⟩, e)

/-- `GradeManager.course_average(key, course_name)`. -/
def GradeManager.course_average (gm : GradeManager)
    (key course_name : String) : Except GMError (Option PyFloat) :=
  match gm.get_student key with
  | .error e => .error e
  | .ok s => s.course_average course_name

namespace Root

/-- Root variant `GradeManager.student_gpa(key)`. -/
def student_gpa (gm : GradeManager) (key : String) :
    Except GMError (Option PyFloat) :=
  match gm.get_student key with
  | .error e => .error e
  | .ok s => .ok (Root.gpa s)

end Root

namespace Waterfall

/-- Waterfall variant `GradeManager.student_gpa(key)`. -/
def student_gpa (gm : GradeManager) (key : String) :
    Except GMError (Option PyFloat) :=
  match gm.get_student key with
  | .error e => .error e
  | .ok s => .ok (Waterfall.gpa s)

end Waterfall

/-! ## Display

The rendered text is modelled line by line: each constructor stands for one
f-string of `display_student`, carrying exactly the data the f-string
interpolates (`courseLine` carries the grade list and the average, rendered
as `"N/A"` when the average is `None`; likewise `gpaLine`). -/

/-- One output line of `display_student`. -/
inductive DLine where
  | idNameLine (student_id nm : String)
  | nameLine (nm : String)
  | idLine (student_id : String)
  | noCourses
  | courseLine (cname : String) (grades : List PyFloat) (avg : Option PyFloat)
  | gpaLine (g : Option PyFloat)
deriving DecidableEq

namespace Root

/-- Root variant `GradeManager.display_student(student_id)`: the header
line, then (`"(no courses)"` when empty and) one line per course **in the
dict's insertion order**, then the GPA line. -/
def display_student (gm : GradeManager) (key : String) :
    Except GMError (List DLine) :=
  match gm.get_student key with
  | .error e => .error e
  | .ok s =>
      .ok ([DLine.idNameLine s.student_id s.name]
        ++ (if s.courses.isEmpty then [DLine.noCourses] else [])
        ++ s.courses.map (fun p => DLine.courseLine p.1 p.2.grades (Course.average p.2))
        ++ [DLine.gpaLine (Root.gpa s)])

end Root

namespace Waterfall

/-- Waterfall variant `GradeManager.display_student(name)`: the two header
lines, then either `"(no courses)"` or one line per course **iterating
`sorted(s.courses)`**, then the GPA line. -/
def display_student (gm : GradeManager) (key : String) :
    Except GMError (List DLine) :=
  match gm.get_student key with
  | .error e => .error e
  | .ok s =>
      .ok ([DLine.nameLine s.name, DLine.idLine s.student_id]
        ++ (if s.courses.isEmpty then [DLine.noCourses]
            else (List.insertionSort pyStrLe (dictKeys s.courses)).map
              (fun cname => DLine.courseLine cname
                (((dictGet? s.courses cname).getD (Course.mkNew cname)).grades)
                (Course.average ((dictGet? s.courses cname).getD (Course.mkNew cname)))))
        ++ [DLine.gpaLine (Waterfall.gpa s)])

end Waterfall

/-! ## Persistence -/

/-- The outcome of `open(path)` + `json.load(f)`, the only two effectful
steps of `load_json`: the file may fail to open (`OSError`), its contents
may fail to parse (`JSONDecodeError`), or a JSON value comes back. -/
inductive FileRead where
  | readFailure
  | decodeFailure
  | parsed (data : Json)

namespace Root

/-- Root variant `GradeManager.save_json(path)`: the JSON object written,
students in the dict's insertion order. -/
def save_json (gm : GradeManager) : Json :=
  .jobj [("students", .jobj (gm.students.map fun p => (p.1, Root.student_to_dict p.2)))]

end Root

namespace Waterfall

/-- Waterfall variant `GradeManager.save_json(path)`: the JSON object
written, students sorted by key (`sorted(self.students.items())`). -/
def save_json (gm : GradeManager) : Json :=
  .jobj [("students",
    .jobj ((List.insertionSort pyPairLe gm.students).map
      fun p => (p.1, Waterfall.student_to_dict p.2)))]

end Waterfall

/-- The student-rebuilding loop of `load_json`, parameterised by the
variant's `Student.from_dict`; aborts at the first raise, leaving whatever
has been rebuilt so far as the manager's state. -/
def loadStudentsLoop (fd : String → Json → Except GMError Student)
    (acc : List (String × Student)) :
    List (String × Json) → GradeManager × Option GMError
  | [] => (⟨acc⟩, none)
  | (key, sdict) :: rest =>
    match fd key sdict with
    | .ok s => loadStudentsLoop fd (dictInsert acc key s) rest
    | .error e => (⟨acc⟩, some e)

/-- `GradeManager.load_json(path)` with the variant's `from_dict` plugged
in: read and parse the file; only then `self.students.clear()` and rebuild
from `data.get("students", {}).items()`.  An open/parse failure propagates
before the clear; a shape failure afterwards leaves the cleared (or
partially rebuilt) state behind. -/
def loadJsonWith (fd : String → Json → Except GMError Student)
    (gm : GradeManager) (file : FileRead) : GradeManager × Option GMError :=
  match file with
  | .readFailure => (gm, some .osError)
  | .decodeFailure => (gm, some .jsonDecodeError)
  | .parsed data =>
    match jsonGetDefault data "students" (.jobj []) with
    | .error e => (⟨[]⟩, some e)
    | .ok studentsJ =>
      match jsonItems studentsJ with
      | .error e => (⟨[]⟩, some e)
      | .ok items => loadStudentsLoop fd [] items

namespace Root

/-- Root variant `GradeManager.load_json(path)`. -/
def load_json (gm : GradeManager) (file : FileRead) :
    GradeManager × Option GMError :=
  loadJsonWith Root.student_from_dict gm file

end Root

namespace Waterfall

/-- Waterfall variant `GradeManager.load_json(path)`. -/
def load_json (gm : GradeManager) (file : FileRead) :
    GradeManager × Option GMError :=
  loadJsonWith Waterfall.student_from_dict gm file

end Waterfall

/-! ## Invariants, spec-side definitions and equivalence predicates -/

/-- All grades of the course are finite real numbers (the data-model
invariant the spec postulates for `grades`). -/
def Course.allFinite (c : Course) : Prop :=
  ∀ g ∈ c.grades, g.isFinite = true

/-- All grades of all of the student's courses are finite. -/
def Student.allFinite (s : Student) : Prop :=
  ∀ p ∈ s.courses, Course.allFinite p.2

/-- The arithmetic mean of the course's grades, read as rationals. -/
def courseMeanQ (c : Course) : ℚ :=
  (c.grades.map PyFloat.toQ).sum / c.grades.length

/-- Modelled from the spec: the fixed piecewise grade-point scale of GPA
Variant B, `avg>=90 -> 4.0, >=80 -> 3.0, >=70 -> 2.0, >=60 -> 1.0,
else 0.0`, on the idealised rational average. -/
def specGradePoint (a : ℚ) : ℚ :=
  if 90 ≤ a then 4
  else if 80 ≤ a then 3
  else if 70 ≤ a then 2
  else if 60 ≤ a then 1
  else 0

/-- Modelled from the spec: Variant B GPA as §4.2 words it — over exactly
the courses that have at least one grade, map the course's numeric average
through the scale and take the arithmetic mean of the points; "not
available" when no course has a grade. -/
def specScaledGpa (s : Student) : Option ℚ :=
  let graded := (s.courses.map Prod.snd).filter fun c => !c.grades.isEmpty
  if graded.isEmpty then none
  else some ((graded.map fun c => specGradePoint (courseMeanQ c)).sum / graded.length)

/-- The §3 Student invariant: every key of the `courses` dict equals the
`name` of the course it maps to, across the whole roster. -/
def CourseNamesOk (gm : GradeManager) : Prop :=
  ∀ p ∈ gm.students, ∀ q ∈ p.2.courses, q.2.name = q.1

/-- The roster states reachable through the program's state-creating and
state-rebuilding operations (both variants' `add_student` and `load_json`,
and the shared delegating operations), starting from the empty manager.
`save_json`, `course_average`, `student_gpa` and `display_student` do not
touch the state. -/
inductive Reachable : GradeManager → Prop where
  | init : Reachable GradeManager.empty
  | add_student_r (gm : GradeManager) (sid nm : String) :
      Reachable gm → Reachable (Root.add_student gm sid nm).1
  | add_student_w (gm : GradeManager) (nm sid : String) :
      Reachable gm → Reachable (Waterfall.add_student gm nm sid).1
  | remove_student (gm : GradeManager) (k : String) :
      Reachable gm → Reachable (GradeManager.remove_student gm k).1
  | enroll (gm : GradeManager) (k c : String) :
      Reachable gm → Reachable (GradeManager.enroll_student_in_course gm k c).1
  | remove_course (gm : GradeManager) (k c : String) :
      Reachable gm → Reachable (GradeManager.remove_course_from_student gm k c).1
  | add_grade (gm : GradeManager) (k c : String) (v : PyVal) :
      Reachable gm → Reachable (GradeManager.add_grade gm k c v).1
  | load_r (gm : GradeManager) (file : FileRead) :
      Reachable gm → Reachable (Root.load_json gm file).1
  | load_w (gm : GradeManager) (file : FileRead) :
      Reachable gm → Reachable (Waterfall.load_json gm file).1

/-- The dict-shape invariant every state built from Python dicts has: the
student keys are pairwise distinct, and so are each student's course
keys. -/
def NodupKeys (gm : GradeManager) : Prop :=
  (gm.students.map Prod.fst).Nodup ∧
  ∀ p ∈ gm.students, (p.2.courses.map Prod.fst).Nodup

/-- Student equivalence as claim C1 words it, relative to the variant's GPA
function: the same set of course names, for each common course name the same
grade sequence in the same order and the same computed average, and the same
GPA. -/
def StudentEquiv (gpaF : Student → Option PyFloat) (a b : Student) : Prop :=
  (∀ c, (dictGet? a.courses c).isSome ↔ (dictGet? b.courses c).isSome) ∧
  (∀ c ca cb, dictGet? a.courses c = some ca → dictGet? b.courses c = some cb →
      ca.grades = cb.grades ∧ Course.average ca = Course.average cb) ∧
  gpaF a = gpaF b

/-- Roster equivalence as claim C1 words it: the same set of student keys,
and equivalent students at each common key. -/
def RosterEquiv (gpaF : Student → Option PyFloat) (a b : GradeManager) : Prop :=
  (∀ k, (dictGet? a.students k).isSome ↔ (dictGet? b.students k).isSome) ∧
  (∀ k sa sb, dictGet? a.students k = some sa → dictGet? b.students k = some sb →
      StudentEquiv gpaF sa sb)

/-- The course names mentioned by the course lines of a rendered summary,
in output order. -/
def dlCourseNames (lines : List DLine) : List String :=
  lines.filterMap fun l =>
    match l with
    | .courseLine c _ _ => some c
    | _ => none

/-- The spec's §8 running example, built through the waterfall manager
operations: add student "alice", enroll "Math", record grades 90 then 80. -/
def aliceChain : GradeManager :=
  ((((Waterfall.add_student GradeManager.empty "alice" "A1").1.enroll_student_in_course
      "alice" "Math").1.add_grade "alice" "Math" (.vfloat (.finite 90))).1.add_grade
      "alice" "Math" (.vfloat (.finite 80))).1

/-! ## General lemmas about the dict and float models -/

theorem dictGet?_some_mem {α : Type} : ∀ {l : List (String × α)} {k : String}
    {v : α}, dictGet? l k = some v → (k, v) ∈ l := by
  intro l
  induction l with
  | nil => intro k v h; simp [dictGet?] at h
  | cons p rest ih =>
    intro k v h
    obtain ⟨pk, pv⟩ := p
    by_cases heq : pk = k
    · subst heq
      simp [dictGet?] at h
      subst h
      exact List.mem_cons_self _ _
    · simp only [dictGet?, if_neg heq] at h
      exact List.mem_cons_of_mem _ (ih h)

theorem dictGet?_eq_none_iff {α : Type} : ∀ {l : List (String × α)}
    {k : String}, dictGet? l k = none ↔ k ∉ l.map Prod.fst := by
  intro l
  induction l with
  | nil => intro k; simp [dictGet?]
  | cons p rest ih =>
    intro k
    obtain ⟨pk, pv⟩ := p
    by_cases heq : pk = k
    · subst heq; simp [dictGet?]
    · simp [dictGet?, heq, ih, Ne.symm heq]

theorem mem_dictInsert {α : Type} : ∀ {l : List (String × α)} {k : String}
    {v : α} {p : String × α}, p ∈ dictInsert l k v → p ∈ l ∨ p = (k, v) := by
  intro l
  induction l with
  | nil => intro k v p h; simp [dictInsert] at h; right; exact h
  | cons q rest ih =>
    intro k v p h
    obtain ⟨qk, qv⟩ := q
    by_cases heq : qk = k
    · simp only [dictInsert, if_pos heq] at h
      rcases List.mem_cons.mp h with h1 | h1
      · right; exact h1
      · left; exact List.mem_cons_of_mem _ h1
    · simp only [dictInsert, if_neg heq] at h
      rcases List.mem_cons.mp h with h1 | h1
      · left; exact h1 ▸ List.mem_cons_self _ _
      · rcases ih h1 with h2 | h2
        · left; exact List.mem_cons_of_mem _ h2
        · right; exact h2

theorem mem_dictRemove {α : Type} : ∀ {l : List (String × α)} {k : String}
    {p : String × α}, p ∈ dictRemove l k → p ∈ l := by
  intro l
  induction l with
  | nil => intro k p h; simp [dictRemove] at h
  | cons q rest ih =>
    intro k p h
    obtain ⟨qk, qv⟩ := q
    by_cases heq : qk = k
    · simp only [dictRemove, if_pos heq] at h
      exact List.mem_cons_of_mem _ h
    · simp only [dictRemove, if_neg heq] at h
      rcases List.mem_cons.mp h with h1 | h1
      · exact h1 ▸ List.mem_cons_self _ _
      · exact List.mem_cons_of_mem _ (ih h1)

theorem dictInsert_self {α : Type} : ∀ {l : List (String × α)} {k : String}
    {v : α}, dictGet? l k = some v → dictInsert l k v = l := by
  intro l
  induction l with
  | nil => intro k v h; simp [dictGet?] at h
  | cons p rest ih =>
    intro k v h
    obtain ⟨pk, pv⟩ := p
    by_cases heq : pk = k
    · subst heq
      simp [dictGet?] at h
      subst h
      simp [dictInsert]
    · simp only [dictGet?, if_neg heq] at h
      simp [dictInsert, heq, ih h]

theorem dictInsert_fresh {α : Type} : ∀ {l : List (String × α)} {k : String}
    (v : α), dictGet? l k = none → dictInsert l k v = l ++ [(k, v)] := by
  intro l
  induction l with
  | nil => intro k v _; simp [dictInsert]
  | cons p rest ih =>
    intro k v h
    obtain ⟨pk, pv⟩ := p
    by_cases heq : pk = k
    · subst heq; simp [dictGet?] at h
    · simp only [dictGet?, if_neg heq] at h
      simp [dictInsert, heq, ih v h]

theorem dictGet?_map_keyed {α β : Type} (f : String → α → β) :
    ∀ (l : List (String × α)) (k : String),
    dictGet? (l.map fun p => (p.1, f p.1 p.2)) k = (dictGet? l k).map (f k) := by
  intro l
  induction l with
  | nil => intro k; simp [dictGet?]
  | cons p rest ih =>
    intro k
    obtain ⟨pk, pv⟩ := p
    by_cases heq : pk = k
    · subst heq; simp [dictGet?]
    · simp [dictGet?, heq, ih]

theorem dictGet?_append_left {α : Type} {k : String} {v : α} :
    ∀ {l : List (String × α)} (l' : List (String × α)),
    dictGet? l k = some v → dictGet? (l ++ l') k = some v := by
  intro l
  induction l with
  | nil => intro l' h; simp [dictGet?] at h
  | cons p rest ih =>
    intro l' h
    obtain ⟨pk, pv⟩ := p
    by_cases heq : pk = k
    · subst heq
      simp [dictGet?] at h
      simp [List.cons_append, dictGet?, h]
    · simp only [dictGet?, if_neg heq] at h
      simpa [List.cons_append, dictGet?, heq] using ih l' h

theorem foldl_pyAdd_finite : ∀ (qs : List ℚ) (a : ℚ),
    List.foldl pyAdd (.finite a) (qs.map PyFloat.finite) = .finite (a + qs.sum) := by
  intro qs
  induction qs with
  | nil => intro a; simp
  | cons q rest ih =>
    intro a
    simp only [List.map_cons, List.foldl_cons, List.sum_cons, pyAdd, ih]
    rw [add_assoc]

theorem pySum_map_finite (qs : List ℚ) :
    pySum (qs.map PyFloat.finite) = .finite qs.sum := by
  simpa [pySum] using foldl_pyAdd_finite qs 0

theorem list_finite_eq_map : ∀ (l : List PyFloat),
    (∀ g ∈ l, g.isFinite = true) →
    l.map (fun g => PyFloat.finite (PyFloat.toQ g)) = l := by
  intro l
  induction l with
  | nil => intro _; simp
  | cons g rest ih =>
    intro h
    have hg := h g (List.mem_cons_self g rest)
    have hr := ih fun x hx => h x (List.mem_cons_of_mem g hx)
    cases g with
    | finite q =>
      rw [List.map_cons, hr]
      simp [PyFloat.toQ]
    | nan => simp [PyFloat.isFinite] at hg
    | inf => simp [PyFloat.isFinite] at hg
    | ninf => simp [PyFloat.isFinite] at hg

theorem allFinite_grades_eq {c : Course} (h : Course.allFinite c) :
    c.grades = (c.grades.map PyFloat.toQ).map PyFloat.finite := by
  rw [List.map_map]
  exact (list_finite_eq_map c.grades h).symm

theorem average_allFinite {c : Course} (h : Course.allFinite c) :
    Course.average c =
      if c.grades.isEmpty then none else some (.finite (courseMeanQ c)) := by
  by_cases he : c.grades.isEmpty
  · simp [Course.average, he]
  · rw [Course.average, if_neg he, if_neg he]
    rw [courseMeanQ]
    conv in pySum c.grades => rw [allFinite_grades_eq h]
    rw [pySum_map_finite]
    rw [pyDivNat]

/-! ## Claim theorems -/

/-- Claim C2: `Course.average` returns the arithmetic mean of the grade
sequence when it is non-empty, and the `None` sentinel — not zero, and
without raising (the embedded function is total) — when it is empty. -/
theorem C2_course_average (c : Course) (qs : List ℚ)
    (hq : c.grades = qs.map PyFloat.finite) :
    (c.grades = [] → Course.average c = none) ∧
    (c.grades ≠ [] → Course.average c = some (.finite (qs.sum / qs.length))) := by
  constructor
  · intro h; simp [Course.average, h]
  · intro h
    have hfin : Course.allFinite c := by
      intro g hg
      rw [hq] at hg
      obtain ⟨q, _, rfl⟩ := List.mem_map.mp hg
      rfl
    rw [average_allFinite hfin]
    have hne : ¬ (c.grades.isEmpty = true) := by
      simpa [List.isEmpty_iff] using h
    rw [if_neg hne, courseMeanQ, hq]
    have hmap : (qs.map PyFloat.finite).map PyFloat.toQ = qs := by
      rw [List.map_map]
      have : PyFloat.toQ ∘ PyFloat.finite = id := by
        funext q; rfl
      rw [this, List.map_id]
    rw [hmap, List.length_map]

/-- Claim C2 witness: a course with grades 90 and 80 averages to their
arithmetic mean. -/
theorem C2_course_average_witness :
    Course.average ⟨"Math", [.finite 90, .finite 80]⟩ =
      some (.finite (([90, 80] : List ℚ).sum / ([90, 80] : List ℚ).length)) :=
  (C2_course_average ⟨"Math", [.finite 90, .finite 80]⟩ [90, 80] rfl).2 (by simp)

/-- Claim C3 is false on the code: `add_grade` accepts NaN — which is not a
finite real number — appending it instead of raising `InvalidInput`, because
the guard only checks `isinstance(grade, (int, float))`. -/
theorem C3_nan_accepted_counterexample :
    Course.add_grade ⟨"Math", []⟩ (.vfloat .nan) = (⟨"Math", [.nan]⟩, none) ∧
    PyFloat.isFinite .nan = false :=
  ⟨rfl, rfl⟩

/-- Claim C3 amended: `add_grade(v)` appends `float(v)` and succeeds exactly
when `v` is numeric (an int, bool, or float — including the non-finite
floats NaN and the infinities, which are accepted, not rejected), and fails
with `InvalidInput` exactly when `v` is not numeric, leaving the course
unchanged. -/
theorem C3_add_grade_amended (c : Course) (v : PyVal) :
    (∀ f, pyNumeric v = some f →
        Course.add_grade c v = ({ c with grades := c.grades ++ [f] }, none)) ∧
    (pyNumeric v = none → Course.add_grade c v = (c, some .invalidInput)) := by
  constructor
  · intro f hf; simp [Course.add_grade, hf]
  · intro hf; simp [Course.add_grade, hf]

/-- Claim C3 amended, witness: infinity is accepted and appended; a string
is rejected with `InvalidInput` and the course is unchanged. -/
theorem C3_add_grade_amended_witness :
    Course.add_grade ⟨"Math", []⟩ (.vfloat .inf) = (⟨"Math", [.inf]⟩, none) ∧
    Course.add_grade ⟨"Math", []⟩ (.vstr "ninety") =
      (⟨"Math", []⟩, some .invalidInput) :=
  ⟨(C3_add_grade_amended ⟨"Math", []⟩ (.vfloat .inf)).1 .inf rfl,
   (C3_add_grade_amended ⟨"Math", []⟩ (.vstr "ninety")).2 rfl⟩

/-- Claim C5: recording a grade for a course the student is not enrolled in
fails with `NotEnrolled` and mutates nothing: the student comes back
unchanged, and so does the whole manager when the call is made through the
roster layer. -/
theorem C5_record_grade_not_enrolled (s : Student) (course : String) (v : PyVal)
    (h : dictGet? s.courses course = none) :
    Student.add_grade s course v = (s, some (.notEnrolled s.name course)) ∧
    ∀ gm key, dictGet? gm.students key = some s →
      GradeManager.add_grade gm key course v =
        (gm, some (.notEnrolled s.name course)) := by
  constructor
  · simp [Student.add_grade, h]
  · intro gm key hk
    simp [GradeManager.add_grade, hk, Student.add_grade, h, dictInsert_self hk]

/-- Claim C5 witness: a student with no courses, exercised both directly and
through a one-student roster. -/
theorem C5_record_grade_not_enrolled_witness :
    Student.add_grade ⟨"1", "Ada", []⟩ "Math" (.vfloat (.finite 90)) =
      (⟨"1", "Ada", []⟩, some (.notEnrolled "Ada" "Math")) ∧
    GradeManager.add_grade ⟨[("1", ⟨"1", "Ada", []⟩)]⟩ "1" "Math" (.vfloat (.finite 90)) =
      (⟨[("1", ⟨"1", "Ada", []⟩)]⟩, some (.notEnrolled "Ada" "Math")) :=
  ⟨(C5_record_grade_not_enrolled ⟨"1", "Ada", []⟩ "Math" (.vfloat (.finite 90)) rfl).1,
   (C5_record_grade_not_enrolled ⟨"1", "Ada", []⟩ "Math" (.vfloat (.finite 90)) rfl).2
      ⟨[("1", ⟨"1", "Ada", []⟩)]⟩ "1" rfl⟩

/-- Claim C6: enrolling a student in a course they already have fails with
`DuplicateEnrollment`; the student is unchanged and the existing course —
its grade list included — is still bound, untouched, after the failed
call. -/
theorem C6_duplicate_enrollment (s : Student) (course : String) (c : Course)
    (h : dictGet? s.courses course = some c) :
    Student.enroll_course s course =
      (s, some (.duplicateEnrollment s.name course)) ∧
    dictGet? (Student.enroll_course s course).1.courses course = some c := by
  have h1 : Student.enroll_course s course =
      (s, some (.duplicateEnrollment s.name course)) := by
    simp [Student.enroll_course, h]
  exact ⟨h1, by rw [h1]; exact h⟩

/-- Claim C6 witness: re-enrolling in "Math" fails and the grade 77 is still
there. -/
theorem C6_duplicate_enrollment_witness :
    Student.enroll_course ⟨"1", "Ada", [("Math", ⟨"Math", [.finite 77]⟩)]⟩ "Math" =
      (⟨"1", "Ada", [("Math", ⟨"Math", [.finite 77]⟩)]⟩,
       some (.duplicateEnrollment "Ada" "Math")) ∧
    dictGet? (Student.enroll_course ⟨"1", "Ada", [("Math", ⟨"Math", [.finite 77]⟩)]⟩
        "Math").1.courses "Math" = some ⟨"Math", [.finite 77]⟩ :=
  C6_duplicate_enrollment ⟨"1", "Ada", [("Math", ⟨"Math", [.finite 77]⟩)]⟩ "Math"
    ⟨"Math", [.finite 77]⟩ rfl

/-- Claim C8, evaluated on the code: the waterfall `from_dict` raises
`KeyError("student_id")` when the secondary-id field is missing — although
its own comment documents defaulting to "N/A" — while a record with no
`courses` key does load as a student with an empty course dict, in both
variants. -/
theorem C8_missing_field_eval :
    Waterfall.student_from_dict "alice" (.jobj [("courses", .jobj [])]) =
      .error (.keyError "student_id") ∧
    Waterfall.student_from_dict "alice" (.jobj [("student_id", .jstr "S1")]) =
      .ok ⟨"S1", "alice", []⟩ ∧
    Root.student_from_dict "a1" (.jobj [("name", .jstr "Alice")]) =
      .ok ⟨"a1", "Alice", []⟩ :=
  ⟨rfl, rfl, rfl⟩

/-- Claim C10: a load that fails because the file cannot be opened or its
contents are not valid JSON leaves the students mapping exactly as it was,
in both variants: those two failures propagate before
`self.students.clear()` runs. -/
theorem C10_load_failure_preserves_state (gm : GradeManager) :
    Root.load_json gm .readFailure = (gm, some .osError) ∧
    Root.load_json gm .decodeFailure = (gm, some .jsonDecodeError) ∧
    Waterfall.load_json gm .readFailure = (gm, some .osError) ∧
    Waterfall.load_json gm .decodeFailure = (gm, some .jsonDecodeError) :=
  ⟨rfl, rfl, rfl, rfl⟩

/-! ## Lemmas for the GPA and display claims -/

theorem isEmpty_map {α β : Type} (f : α → β) (l : List α) :
    (l.map f).isEmpty = l.isEmpty := by
  cases l <;> rfl

theorem pts_mean (l : List ℚ) :
    (if (l.map PyFloat.finite).isEmpty then none
     else some (pyDivNat (pySum (l.map PyFloat.finite)) (l.map PyFloat.finite).length)) =
    (if l.isEmpty then none else some (l.sum / l.length)).map PyFloat.finite := by
  cases l with
  | nil => simp
  | cons q qs =>
    rw [pySum_map_finite, isEmpty_map, List.length_map]
    simp [pyDivNat]

theorem gradePoint_finite (a : ℚ) :
    Waterfall.gradePoint (.finite a) = .finite (specGradePoint a) := by
  simp only [Waterfall.gradePoint, specGradePoint, pyGe, decide_eq_true_eq]
  split_ifs <;> rfl

theorem filterMap_gradePoints : ∀ (cs : List Course),
    (∀ c ∈ cs, Course.allFinite c) →
    cs.filterMap (fun c => (Course.average c).map Waterfall.gradePoint) =
      ((cs.filter fun c => !c.grades.isEmpty).map
        fun c => PyFloat.finite (specGradePoint (courseMeanQ c))) := by
  intro cs
  induction cs with
  | nil => intro _; simp
  | cons c rest ih =>
    intro h
    have hc := h c (List.mem_cons_self c rest)
    have hr := ih fun x hx => h x (List.mem_cons_of_mem c hx)
    rw [List.filterMap_cons, List.filter_cons, average_allFinite hc]
    by_cases he : c.grades.isEmpty
    · simp [he, hr]
    · simp [he, hr, gradePoint_finite]

theorem dlCourseNames_append (a b : List DLine) :
    dlCourseNames (a ++ b) = dlCourseNames a ++ dlCourseNames b := by
  simp [dlCourseNames, List.filterMap_append]

theorem dlCourseNames_pairs {α : Type} (l : List (String × α))
    (f : String × α → List PyFloat) (g : String × α → Option PyFloat) :
    dlCourseNames (l.map fun p => DLine.courseLine p.1 (f p) (g p)) =
      l.map Prod.fst := by
  induction l with
  | nil => rfl
  | cons p rest ih =>
    simp only [List.map_cons, dlCourseNames, List.filterMap_cons] at ih ⊢
    rw [ih]

theorem dlCourseNames_keys (ks : List String)
    (f : String → List PyFloat) (g : String → Option PyFloat) :
    dlCourseNames (ks.map fun k => DLine.courseLine k (f k) (g k)) = ks := by
  induction ks with
  | nil => rfl
  | cons k rest ih =>
    simp only [List.map_cons, dlCourseNames, List.filterMap_cons] at ih ⊢
    rw [ih]


theorem strLtb_asymm : ∀ x y, strLtb x y = true → strLtb y x = false := by
  intro x
  induction x with
  | nil =>
    intro y h
    cases y with
    | nil => simp [strLtb] at h
    | cons b bs => simp [strLtb]
  | cons a as ih =>
    intro y h
    cases y with
    | nil => simp [strLtb] at h
    | cons b bs =>
      rw [strLtb] at h ⊢
      rcases lt_trichotomy a b with hab | rfl | hab
      · simp [hab, lt_asymm hab]
      · simp [lt_irrefl] at h ⊢
        exact ih bs h
      · simp [hab, lt_asymm hab] at h
theorem strLtb_trans : ∀ x y z, strLtb x y = true → strLtb y z = true →
    strLtb x z = true := by
  intro x
  induction x with
  | nil =>
    intro y z hxy hyz
    cases z with
    | nil =>
      cases y with
      | nil => simp [strLtb] at hxy
      | cons b bs => simp [strLtb] at hyz
    | cons c cs => simp [strLtb]
  | cons a as ih =>
    intro y z hxy hyz
    cases y with
    | nil => simp [strLtb] at hxy
    | cons b bs =>
      cases z with
      | nil => simp [strLtb] at hyz
      | cons c cs =>
        rw [strLtb] at hxy hyz ⊢
        rcases lt_trichotomy a b with hab | rfl | hab
        · rcases lt_trichotomy b c with hbc | rfl | hbc
          · simp [lt_trans hab hbc]
          · simp [hab]
          · simp [hbc, lt_asymm hbc] at hyz
        · rcases lt_trichotomy a c with hac | rfl | hac
          · simp [hac]
          · simp [lt_irrefl] at hxy hyz ⊢
            exact ih bs cs hxy hyz
          · simp [hac, lt_asymm hac] at hyz
        · simp [hab, lt_asymm hab] at hxy
theorem strLtb_eq_of_neither : ∀ x y, strLtb x y = false → strLtb y x = false →
    x = y := by
  intro x
  induction x with
  | nil =>
    intro y h1 _
    cases y with
    | nil => rfl
    | cons b bs => simp [strLtb] at h1
  | cons a as ih =>
    intro y h1 h2
    cases y with
    | nil => simp [strLtb] at h2
    | cons b bs =>
      rw [strLtb] at h1 h2
      rcases lt_trichotomy a b with hab | rfl | hab
      · simp [hab] at h1
      · simp [lt_irrefl] at h1 h2
        rw [ih bs h1 h2]
      · simp [hab, lt_asymm hab] at h2
theorem pyStrLe_total : ∀ a b : String, pyStrLe a b ∨ pyStrLe b a := by
  intro a b
  rw [pyStrLe, pyStrLe]
  cases h : strLtb b.data a.data with
  | false => left; rfl
  | true => right; exact strLtb_asymm _ _ h
theorem pyStrLe_trans : ∀ a b c : String, pyStrLe a b → pyStrLe b c →
    pyStrLe a c := by
  intro a b c h1 h2
  rw [pyStrLe] at h1 h2 ⊢
  cases hca : strLtb c.data a.data with
  | false => rfl
  | true =>
    exfalso
    cases hbc : strLtb b.data c.data with
    | true => rw [strLtb_trans _ _ _ hbc hca] at h1; exact Bool.noConfusion h1
    | false =>
      rw [strLtb_eq_of_neither _ _ hbc h2] at h1
      rw [hca] at h1
      exact Bool.noConfusion h1

/-- Claim C4: the waterfall (Variant B) `gpa` maps each course's average to
a grade point by the spec's fixed piecewise scale, over exactly the courses
with at least one grade, and returns the arithmetic mean of the points
(`None` when no course has a grade); and on the spec's example — student
"alice", course "Math", grades 90 then 80 — the course average is 85.0 and
the GPA is 3.0. -/
theorem C4_variantB_gpa :
    (∀ s : Student, Student.allFinite s →
        Waterfall.gpa s = (specScaledGpa s).map PyFloat.finite) ∧
    GradeManager.course_average aliceChain "alice" "Math" =
      .ok (some (.finite 85)) ∧
    Waterfall.student_gpa aliceChain "alice" = .ok (some (.finite 3)) := by
  refine ⟨?_, ?_, ?_⟩
  · intro s h
    have hall : ∀ c ∈ s.courses.map Prod.snd, Course.allFinite c := by
      intro c hc
      obtain ⟨p, hp, rfl⟩ := List.mem_map.mp hc
      exact h p hp
    simp only [Waterfall.gpa, specScaledGpa]
    rw [filterMap_gradePoints _ hall]
    rw [show ((s.courses.map Prod.snd).filter fun c => !c.grades.isEmpty).map
          (fun c => PyFloat.finite (specGradePoint (courseMeanQ c))) =
        (((s.courses.map Prod.snd).filter fun c => !c.grades.isEmpty).map
          (fun c => specGradePoint (courseMeanQ c))).map PyFloat.finite by
      rw [List.map_map]; rfl]
    rw [pts_mean, isEmpty_map, List.length_map]
  · norm_num +decide [aliceChain, Waterfall.add_student, GradeManager.empty,
      GradeManager.enroll_student_in_course, GradeManager.add_grade,
      GradeManager.course_average, GradeManager.get_student,
      Student.enroll_course, Student.add_grade, Student.course_average,
      Course.mkNew, Course.add_grade, Course.average, pyNumeric,
      dictGet?, dictInsert, pySum, pyAdd, pyDivNat]
  · norm_num +decide [aliceChain, Waterfall.add_student, GradeManager.empty,
      GradeManager.enroll_student_in_course, GradeManager.add_grade,
      Waterfall.student_gpa, GradeManager.get_student,
      Student.enroll_course, Student.add_grade,
      Course.mkNew, Course.add_grade, Course.average, pyNumeric,
      Waterfall.gpa, Waterfall.gradePoint, pyGe, dictGet?, dictInsert,
      pySum, pyAdd, pyDivNat,
      List.filterMap_cons, List.filterMap_nil, List.foldl_cons, List.foldl_nil]

/-- Claim C4 witness: the Variant B GPA of the example student agrees with
the spec-side scaled GPA. -/
theorem C4_variantB_gpa_witness :
    Waterfall.gpa ⟨"A1", "alice", [("Math", ⟨"Math", [.finite 90, .finite 80]⟩)]⟩ =
      (specScaledGpa ⟨"A1", "alice", [("Math", ⟨"Math", [.finite 90, .finite 80]⟩)]⟩).map
        PyFloat.finite :=
  C4_variantB_gpa.1 ⟨"A1", "alice", [("Math", ⟨"Math", [.finite 90, .finite 80]⟩)]⟩
    (by simp [Student.allFinite, Course.allFinite, PyFloat.isFinite])

/-- Claim C7 is false on the root variant: with courses enrolled in the
order "B" then "A", `display_student` lists B's line before A's — the
insertion order, not the sorted order the claim asserts for every
render. -/
theorem C7_root_unsorted_counterexample :
    (Root.display_student ⟨[("s1", ⟨"s1", "Bob",
        [("B", ⟨"B", []⟩), ("A", ⟨"A", []⟩)]⟩)]⟩ "s1").map dlCourseNames =
      .ok ["B", "A"] ∧
    List.insertionSort pyStrLe ["B", "A"] = ["A", "B"] ∧
    (["B", "A"] : List String) ≠ ["A", "B"] :=
  ⟨rfl, by decide, by decide⟩

/-- Claim C7 amended: `display_student` renders the course lines in the
dict's insertion order in the root variant, and sorted by course name
(`sorted(s.courses)`) in the waterfall variant; the sorted listing is indeed
sorted, and both renders are deterministic functions of the state.  Averages
and GPA render as their `Option` values, with `None` standing for "N/A". -/
theorem C7_display_amended (gm : GradeManager) (key : String) (s : Student)
    (h : dictGet? gm.students key = some s) :
    (Root.display_student gm key).map dlCourseNames = .ok (dictKeys s.courses) ∧
    (Waterfall.display_student gm key).map dlCourseNames =
      .ok (List.insertionSort pyStrLe (dictKeys s.courses)) ∧
    List.Sorted pyStrLe
      (List.insertionSort pyStrLe (dictKeys s.courses)) := by
  haveI : IsTotal String pyStrLe := ⟨pyStrLe_total⟩
  haveI : IsTrans String pyStrLe := ⟨pyStrLe_trans⟩
  refine ⟨?_, ?_, List.sorted_insertionSort _ _⟩
  · simp only [Root.display_student, GradeManager.get_student, h, Except.map]
    rw [dlCourseNames_append, dlCourseNames_append, dlCourseNames_append,
      dlCourseNames_pairs]
    by_cases he : s.courses.isEmpty
    · have h0 : s.courses = [] := List.isEmpty_iff.mp he
      simp [dlCourseNames, h0, dictKeys]
    · simp [he, dlCourseNames, dictKeys]
  · simp only [Waterfall.display_student, GradeManager.get_student, h, Except.map]
    by_cases he : s.courses.isEmpty
    · have h0 : s.courses = [] := List.isEmpty_iff.mp he
      simp [dlCourseNames, h0, dictKeys]
    · simp only [he, Bool.false_eq_true, if_false]
      rw [dlCourseNames_append, dlCourseNames_append, dlCourseNames_keys]
      simp [dlCourseNames]

/-- Claim C7 amended, witness: a student enrolled in "B" then "A" renders in
that order in the root variant and in sorted order in the waterfall
variant. -/
theorem C7_display_amended_witness :
    (Root.display_student ⟨[("s1", ⟨"s1", "Bob",
        [("B", ⟨"B", []⟩), ("A", ⟨"A", []⟩)]⟩)]⟩ "s1").map dlCourseNames =
      .ok (dictKeys (⟨"s1", "Bob",
        [("B", ⟨"B", []⟩), ("A", ⟨"A", []⟩)]⟩ : Student).courses) ∧
    (Waterfall.display_student ⟨[("s1", ⟨"s1", "Bob",
        [("B", ⟨"B", []⟩), ("A", ⟨"A", []⟩)]⟩)]⟩ "s1").map dlCourseNames =
      .ok (List.insertionSort pyStrLe (dictKeys (⟨"s1", "Bob",
        [("B", ⟨"B", []⟩), ("A", ⟨"A", []⟩)]⟩ : Student).courses)) ∧
    List.Sorted pyStrLe
      (List.insertionSort pyStrLe (dictKeys (⟨"s1", "Bob",
        [("B", ⟨"B", []⟩), ("A", ⟨"A", []⟩)]⟩ : Student).courses)) :=
  C7_display_amended ⟨[("s1", ⟨"s1", "Bob",
    [("B", ⟨"B", []⟩), ("A", ⟨"A", []⟩)]⟩)]⟩ "s1"
    ⟨"s1", "Bob", [("B", ⟨"B", []⟩), ("A", ⟨"A", []⟩)]⟩ rfl

/-! ## Lemmas for the course-name invariant (claim C9) -/

theorem add_grade_fst_name (c : Course) (v : PyVal) :
    (Course.add_grade c v).1.name = c.name := by
  cases h : pyNumeric v <;> simp [Course.add_grade, h]

theorem addGradesLoop_name : ∀ (vs : List PyVal) (c c' : Course),
    addGradesLoop c vs = .ok c' → c'.name = c.name := by
  intro vs
  induction vs with
  | nil =>
    intro c c' h
    simp [addGradesLoop] at h
    rw [h]
  | cons v rest ih =>
    intro c c' h
    rw [addGradesLoop] at h
    cases hg : Course.add_grade c v with
    | mk c2 e =>
      cases e with
      | none =>
        rw [hg] at h
        have h1 := ih c2 c' h
        have h2 : c2.name = c.name := by
          have := add_grade_fst_name c v
          rw [hg] at this
          exact this
        rw [h1, h2]
      | some e0 => rw [hg] at h; exact Except.noConfusion h

theorem from_list_name (n : String) (j : Json) (c : Course)
    (h : Course.from_list n j = .ok c) : c.name = n := by
  rw [Course.from_list] at h
  cases hi : jsonIterate j with
  | ok vs =>
    rw [hi] at h
    exact addGradesLoop_name vs (Course.mkNew n) c h
  | error e => rw [hi] at h; exact Except.noConfusion h

theorem coursesLoop_ok : ∀ (items : List (String × Json)) (s s' : Student),
    (∀ q ∈ s.courses, q.2.name = q.1) → coursesLoop s items = .ok s' →
    ∀ q ∈ s'.courses, q.2.name = q.1 := by
  intro items
  induction items with
  | nil =>
    intro s s' hs h
    simp [coursesLoop] at h
    rw [← h]
    exact hs
  | cons item rest ih =>
    intro s s' hs h
    obtain ⟨cname, grades⟩ := item
    rw [coursesLoop] at h
    cases hf : Course.from_list cname grades with
    | ok c =>
      rw [hf] at h
      refine ih _ s' ?_ h
      intro q hq
      rcases mem_dictInsert hq with h1 | h1
      · exact hs q h1
      · rw [h1]
        exact from_list_name cname grades c hf
    | error e => rw [hf] at h; exact Except.noConfusion h

theorem from_dict_ok_root (key : String) (data : Json) (s : Student)
    (h : Root.student_from_dict key data = .ok s) :
    ∀ q ∈ s.courses, q.2.name = q.1 := by
  rw [Root.student_from_dict] at h
  cases h1 : jsonIndex data "name" with
  | error e => simp only [h1] at h; exact Except.noConfusion h
  | ok nameJ =>
    simp only [h1] at h
    cases nameJ with
    | jstr nm =>
      cases h2 : jsonGetDefault data "courses" (.jobj []) with
      | error e => simp only [h2] at h; exact Except.noConfusion h
      | ok coursesJ =>
        simp only [h2] at h
        cases h3 : jsonItems coursesJ with
        | error e => simp only [h3] at h; exact Except.noConfusion h
        | ok items =>
          simp only [h3] at h
          exact coursesLoop_ok items _ s (by intro q hq; simp at hq) h
    | jnum f => exact Except.noConfusion h
    | jbool b => exact Except.noConfusion h
    | jnull => exact Except.noConfusion h
    | jarr xs => exact Except.noConfusion h
    | jobj fs => exact Except.noConfusion h

theorem from_dict_ok_waterfall (key : String) (data : Json) (s : Student)
    (h : Waterfall.student_from_dict key data = .ok s) :
    ∀ q ∈ s.courses, q.2.name = q.1 := by
  rw [Waterfall.student_from_dict] at h
  cases h1 : jsonIndex data "student_id" with
  | error e => simp only [h1] at h; exact Except.noConfusion h
  | ok sidJ =>
    simp only [h1] at h
    cases sidJ with
    | jstr sid =>
      cases h2 : jsonGetDefault data "courses" (.jobj []) with
      | error e => simp only [h2] at h; exact Except.noConfusion h
      | ok coursesJ =>
        simp only [h2] at h
        cases h3 : jsonItems coursesJ with
        | error e => simp only [h3] at h; exact Except.noConfusion h
        | ok items =>
          simp only [h3] at h
          exact coursesLoop_ok items _ s (by intro q hq; simp at hq) h
    | jnum f => exact Except.noConfusion h
    | jbool b => exact Except.noConfusion h
    | jnull => exact Except.noConfusion h
    | jarr xs => exact Except.noConfusion h
    | jobj fs => exact Except.noConfusion h

theorem loadStudentsLoop_ok (fd : String → Json → Except GMError Student)
    (hfd : ∀ k d s, fd k d = .ok s → ∀ q ∈ s.courses, q.2.name = q.1) :
    ∀ (items : List (String × Json)) (acc : List (String × Student)),
    (∀ p ∈ acc, ∀ q ∈ p.2.courses, q.2.name = q.1) →
    CourseNamesOk (loadStudentsLoop fd acc items).1 := by
  intro items
  induction items with
  | nil =>
    intro acc hacc
    simpa [loadStudentsLoop, CourseNamesOk] using hacc
  | cons item rest ih =>
    intro acc hacc
    obtain ⟨key, sdict⟩ := item
    rw [loadStudentsLoop]
    cases hf : fd key sdict with
    | ok s =>
      refine ih _ ?_
      intro p hp
      rcases mem_dictInsert hp with h1 | h1
      · exact hacc p h1
      · rw [h1]
        exact hfd key sdict s hf
    | error e =>
      simpa [CourseNamesOk] using hacc

theorem loadJsonWith_ok (fd : String → Json → Except GMError Student)
    (hfd : ∀ k d s, fd k d = .ok s → ∀ q ∈ s.courses, q.2.name = q.1)
    (gm : GradeManager) (file : FileRead) (hgm : CourseNamesOk gm) :
    CourseNamesOk (loadJsonWith fd gm file).1 := by
  cases file with
  | readFailure => exact hgm
  | decodeFailure => exact hgm
  | parsed data =>
    cases h1 : jsonGetDefault data "students" (.jobj []) with
    | error e =>
      simp only [loadJsonWith, h1]
      intro p hp
      simp at hp
    | ok studentsJ =>
      cases h2 : jsonItems studentsJ with
      | error e =>
        simp only [loadJsonWith, h1, h2]
        intro p hp
        simp at hp
      | ok items =>
        simp only [loadJsonWith, h1, h2]
        exact loadStudentsLoop_ok fd hfd items [] (by intro p hp; simp at hp)

/-- Claim C9: every state-creating or state-rebuilding operation preserves
the invariant that each key of a student's courses dict equals the bound
course's `name`: the invariant holds in every reachable roster state, under
either variant's operations. -/
theorem C9_course_name_invariant (gm : GradeManager) (h : Reachable gm) :
    CourseNamesOk gm := by
  induction h with
  | init => intro p hp; simp [GradeManager.empty] at hp
  | add_student_r gm0 sid nm _ ih =>
    rw [Root.add_student]
    cases hg : dictGet? gm0.students sid with
    | some s => exact ih
    | none =>
      intro p hp
      rcases mem_dictInsert hp with h1 | h1
      · exact ih p h1
      · rw [h1]; intro q hq; simp at hq
  | add_student_w gm0 nm sid _ ih =>
    rw [Waterfall.add_student]
    cases hg : dictGet? gm0.students nm with
    | some s => exact ih
    | none =>
      intro p hp
      rcases mem_dictInsert hp with h1 | h1
      · exact ih p h1
      · rw [h1]; intro q hq; simp at hq
  | remove_student gm0 k _ ih =>
    rw [GradeManager.remove_student]
    cases hg : dictGet? gm0.students k with
    | none => exact ih
    | some s =>
      intro p hp
      exact ih p (mem_dictRemove hp)
  | enroll gm0 k c _ ih =>
    cases hg : dictGet? gm0.students k with
    | none => simp only [GradeManager.enroll_student_in_course, hg]; exact ih
    | some s =>
      have hs := ih (k, s) (dictGet?_some_mem hg)
      cases hc : dictGet? s.courses c with
      | some c0 =>
        simp only [GradeManager.enroll_student_in_course, hg,
          Student.enroll_course, hc]
        intro p hp
        rcases mem_dictInsert hp with h1 | h1
        · exact ih p h1
        · rw [h1]; exact hs
      | none =>
        simp only [GradeManager.enroll_student_in_course, hg,
          Student.enroll_course, hc]
        intro p hp
        rcases mem_dictInsert hp with h1 | h1
        · exact ih p h1
        · rw [h1]
          intro q hq
          rcases mem_dictInsert hq with h2 | h2
          · exact hs q h2
          · rw [h2]; rfl
  | remove_course gm0 k c _ ih =>
    cases hg : dictGet? gm0.students k with
    | none => simp only [GradeManager.remove_course_from_student, hg]; exact ih
    | some s =>
      have hs := ih (k, s) (dictGet?_some_mem hg)
      cases hc : dictGet? s.courses c with
      | none =>
        simp only [GradeManager.remove_course_from_student, hg,
          Student.remove_course, hc]
        intro p hp
        rcases mem_dictInsert hp with h1 | h1
        · exact ih p h1
        · rw [h1]; exact hs
      | some c0 =>
        simp only [GradeManager.remove_course_from_student, hg,
          Student.remove_course, hc]
        intro p hp
        rcases mem_dictInsert hp with h1 | h1
        · exact ih p h1
        · rw [h1]
          intro q hq
          exact hs q (mem_dictRemove hq)
  | add_grade gm0 k c v _ ih =>
    cases hg : dictGet? gm0.students k with
    | none => simp only [GradeManager.add_grade, hg]; exact ih
    | some s =>
      have hs := ih (k, s) (dictGet?_some_mem hg)
      cases hc : dictGet? s.courses c with
      | none =>
        simp only [GradeManager.add_grade, hg, Student.add_grade, hc]
        intro p hp
        rcases mem_dictInsert hp with h1 | h1
        · exact ih p h1
        · rw [h1]; exact hs
      | some c0 =>
        simp only [GradeManager.add_grade, hg, Student.add_grade, hc]
        intro p hp
        rcases mem_dictInsert hp with h1 | h1
        · exact ih p h1
        · rw [h1]
          intro q hq
          rcases mem_dictInsert hq with h2 | h2
          · exact hs q h2
          · rw [h2]
            have := add_grade_fst_name c0 v
            rw [this]
            exact hs (c, c0) (dictGet?_some_mem hc)
  | load_r gm0 file _ ih =>
    exact loadJsonWith_ok Root.student_from_dict from_dict_ok_root gm0 file ih
  | load_w gm0 file _ ih =>
    exact loadJsonWith_ok Waterfall.student_from_dict from_dict_ok_waterfall gm0 file ih

/-- Claim C9 witness: the invariant at the state reached by adding a student
and enrolling them in "Math". -/
theorem C9_course_name_invariant_witness :
    CourseNamesOk ((GradeManager.enroll_student_in_course
      (Root.add_student GradeManager.empty "1" "Ada").1 "1" "Math").1) :=
  C9_course_name_invariant _
    (Reachable.enroll _ "1" "Math" (Reachable.add_student_r _ "1" "Ada" Reachable.init))

/-! ## Lemmas for the save/load round trip (claim C1) -/

theorem dictGet?_append_none {α : Type} {k : String} :
    ∀ {l : List (String × α)} (l' : List (String × α)),
    dictGet? l k = none → dictGet? (l ++ l') k = dictGet? l' k := by
  intro l
  induction l with
  | nil => intro l' _; rfl
  | cons p rest ih =>
    intro l' h
    obtain ⟨pk, pv⟩ := p
    by_cases heq : pk = k
    · subst heq; simp [dictGet?] at h
    · simp only [dictGet?, if_neg heq] at h
      simpa [List.cons_append, dictGet?, heq] using ih l' h

theorem dictGet?_of_mem_nodup {α : Type} : ∀ {l : List (String × α)}
    {k : String} {v : α}, (k, v) ∈ l → (l.map Prod.fst).Nodup →
    dictGet? l k = some v := by
  intro l
  induction l with
  | nil => intro k v h _; simp at h
  | cons p rest ih =>
    intro k v h hn
    obtain ⟨pk, pv⟩ := p
    rw [List.map_cons, List.nodup_cons] at hn
    rcases List.mem_cons.mp h with h1 | h1
    · have hk : k = pk := congrArg Prod.fst h1
      have hv : v = pv := congrArg Prod.snd h1
      subst hk
      subst hv
      simp [dictGet?]
    · by_cases heq : pk = k
      · subst heq
        exact absurd (List.mem_map.mpr ⟨(pk, v), h1, rfl⟩) hn.1
      · simp only [dictGet?, if_neg heq]
        exact ih h1 hn.2

theorem dictGet?_perm {α : Type} {l l' : List (String × α)}
    (hp : l.Perm l') (hn : (l.map Prod.fst).Nodup) (k : String) :
    dictGet? l k = dictGet? l' k := by
  have hn' : (l'.map Prod.fst).Nodup := ((hp.map Prod.fst).nodup_iff).mp hn
  cases h : dictGet? l k with
  | some v =>
    exact (dictGet?_of_mem_nodup (hp.mem_iff.mp (dictGet?_some_mem h)) hn').symm
  | none =>
    cases h2 : dictGet? l' k with
    | none => rfl
    | some v =>
      exfalso
      have := hp.mem_iff.mpr (dictGet?_some_mem h2)
      rw [dictGet?_eq_none_iff] at h
      exact h (List.mem_map.mpr ⟨(k, v), this, rfl⟩)

theorem average_congr (c c' : Course) (h : c.grades = c'.grades) :
    Course.average c = Course.average c' := by
  rw [Course.average, Course.average, h]

theorem addGradesLoop_floats : ∀ (fs : List PyFloat) (c : Course),
    addGradesLoop c (fs.map PyVal.vfloat) = .ok ⟨c.name, c.grades ++ fs⟩ := by
  intro fs
  induction fs with
  | nil => intro c; simp [addGradesLoop]
  | cons f rest ih =>
    intro c
    rw [List.map_cons, addGradesLoop]
    simp only [Course.add_grade, pyNumeric]
    rw [ih]
    simp

theorem from_list_to_dict (n : String) (c : Course) :
    Course.from_list n (Course.to_dict c) = .ok ⟨n, c.grades⟩ := by
  rw [Course.to_dict, Course.from_list]
  simp only [jsonIterate, List.map_map]
  have h1 : ((fun g => match g with
      | .jnum f => PyVal.vfloat f
      | .jstr s => PyVal.vstr s
      | .jbool b => PyVal.vbool b
      | .jnull => PyVal.vnone
      | .jarr _ => PyVal.vother
      | .jobj _ => PyVal.vother) ∘ Json.jnum) = PyVal.vfloat := by
    funext f; rfl
  rw [h1, addGradesLoop_floats]
  simp [Course.mkNew]

theorem coursesLoop_to_dict : ∀ (cl : List (String × Course)) (sid nm : String)
    (acc : List (String × Course)),
    (∀ p ∈ cl, dictGet? acc p.1 = none) → (cl.map Prod.fst).Nodup →
    coursesLoop ⟨sid, nm, acc⟩ (cl.map fun p => (p.1, Course.to_dict p.2)) =
      .ok ⟨sid, nm, acc ++ cl.map fun p => (p.1, ⟨p.1, p.2.grades⟩)⟩ := by
  intro cl
  induction cl with
  | nil => intro sid nm acc _ _; simp [coursesLoop]
  | cons p rest ih =>
    intro sid nm acc hacc hn
    obtain ⟨k, c⟩ := p
    rw [List.map_cons, coursesLoop]
    simp only [from_list_to_dict]
    rw [List.map_cons, List.nodup_cons] at hn
    have hfresh : dictGet? acc k = none := hacc (k, c) (List.mem_cons_self _ _)
    rw [dictInsert_fresh _ hfresh]
    rw [ih sid nm _ ?_ hn.2]
    · simp
    · intro q hq
      rw [dictGet?_append_none _ (hacc q (List.mem_cons_of_mem _ hq))]
      have hne : q.1 ≠ k := by
        intro hqe
        exact hn.1 (List.mem_map.mpr ⟨q, hq, hqe⟩)
      simp [dictGet?, hne.symm]

theorem from_dict_to_dict_root (key : String) (s : Student)
    (hn : (s.courses.map Prod.fst).Nodup) :
    Root.student_from_dict key (Root.student_to_dict s) =
      .ok ⟨key, s.name, s.courses.map fun p => (p.1, ⟨p.1, p.2.grades⟩)⟩ := by
  have hred : Root.student_from_dict key (Root.student_to_dict s) =
      coursesLoop ⟨key, s.name, []⟩
        (s.courses.map fun p => (p.1, Course.to_dict p.2)) := rfl
  rw [hred, coursesLoop_to_dict s.courses key s.name [] (fun p _ => rfl) hn]
  simp

theorem from_dict_to_dict_waterfall (key : String) (s : Student)
    (hn : (s.courses.map Prod.fst).Nodup) :
    Waterfall.student_from_dict key (Waterfall.student_to_dict s) =
      .ok ⟨s.student_id, key, s.courses.map fun p => (p.1, ⟨p.1, p.2.grades⟩)⟩ := by
  have hred : Waterfall.student_from_dict key (Waterfall.student_to_dict s) =
      coursesLoop ⟨s.student_id, key, []⟩
        (s.courses.map fun p => (p.1, Course.to_dict p.2)) := rfl
  rw [hred, coursesLoop_to_dict s.courses s.student_id key [] (fun p _ => rfl) hn]
  simp

theorem loadStudentsLoop_map (fd : String → Json → Except GMError Student)
    (g : Student → Json) (F : String → Student → Student) :
    ∀ (sl : List (String × Student)) (acc : List (String × Student)),
    (∀ p ∈ sl, fd p.1 (g p.2) = .ok (F p.1 p.2)) →
    (∀ p ∈ sl, dictGet? acc p.1 = none) →
    (sl.map Prod.fst).Nodup →
    loadStudentsLoop fd acc (sl.map fun p => (p.1, g p.2)) =
      (⟨acc ++ sl.map fun p => (p.1, F p.1 p.2)⟩, none) := by
  intro sl
  induction sl with
  | nil => intro acc _ _ _; simp [loadStudentsLoop]
  | cons p rest ih =>
    intro acc hfd hacc hn
    obtain ⟨k, st⟩ := p
    rw [List.map_cons, loadStudentsLoop]
    simp only [hfd (k, st) (List.mem_cons_self _ _)]
    rw [List.map_cons, List.nodup_cons] at hn
    have hfresh : dictGet? acc k = none := hacc (k, st) (List.mem_cons_self _ _)
    rw [dictInsert_fresh _ hfresh]
    rw [ih _ (fun q hq => hfd q (List.mem_cons_of_mem _ hq)) ?_ hn.2]
    · simp
    · intro q hq
      rw [dictGet?_append_none _ (hacc q (List.mem_cons_of_mem _ hq))]
      have hne : q.1 ≠ k := by
        intro hqe
        exact hn.1 (List.mem_map.mpr ⟨q, hq, hqe⟩)
      simp [dictGet?, hne.symm]

theorem filterMap_norm {γ : Type} (h : Course → Option γ)
    (hh : ∀ c c' : Course, c.grades = c'.grades → h c = h c') :
    ∀ (l : List (String × Course)),
    ((l.map fun q => (q.1, (⟨q.1, q.2.grades⟩ : Course))).map Prod.snd).filterMap h =
      (l.map Prod.snd).filterMap h := by
  intro l
  induction l with
  | nil => rfl
  | cons q rest ih =>
    simp only [List.map_cons, List.filterMap_cons]
    rw [hh ⟨q.1, q.2.grades⟩ q.2 rfl, ih]

theorem dictGet?_normCourses (l : List (String × Course)) (k : String) :
    dictGet? (l.map fun q => (q.1, (⟨q.1, q.2.grades⟩ : Course))) k =
      (dictGet? l k).map fun co => ⟨k, co.grades⟩ :=
  dictGet?_map_keyed (fun k0 co => (⟨k0, co.grades⟩ : Course)) l k

theorem dictGet?_normStudentsRoot (l : List (String × Student)) (k : String) :
    dictGet? (l.map fun p => (p.1, (⟨p.1, p.2.name,
        p.2.courses.map fun q => (q.1, ⟨q.1, q.2.grades⟩)⟩ : Student))) k =
      (dictGet? l k).map fun s => ⟨k, s.name,
        s.courses.map fun q => (q.1, ⟨q.1, q.2.grades⟩)⟩ :=
  dictGet?_map_keyed
    (fun k0 s => (⟨k0, s.name,
      s.courses.map fun q => (q.1, ⟨q.1, q.2.grades⟩)⟩ : Student)) l k

theorem dictGet?_normStudentsWaterfall (l : List (String × Student)) (k : String) :
    dictGet? (l.map fun p => (p.1, (⟨p.2.student_id, p.1,
        p.2.courses.map fun q => (q.1, ⟨q.1, q.2.grades⟩)⟩ : Student))) k =
      (dictGet? l k).map fun s => ⟨s.student_id, k,
        s.courses.map fun q => (q.1, ⟨q.1, q.2.grades⟩)⟩ :=
  dictGet?_map_keyed
    (fun k0 s => (⟨s.student_id, k0,
      s.courses.map fun q => (q.1, ⟨q.1, q.2.grades⟩)⟩ : Student)) l k

theorem root_gpa_norm (s s' : Student)
    (hc : s'.courses = s.courses.map fun q => (q.1, ⟨q.1, q.2.grades⟩)) :
    Root.gpa s' = Root.gpa s := by
  rw [Root.gpa, Root.gpa, hc,
    filterMap_norm Course.average (fun c c' h => average_congr c c' h)]

theorem waterfall_gpa_norm (s s' : Student)
    (hc : s'.courses = s.courses.map fun q => (q.1, ⟨q.1, q.2.grades⟩)) :
    Waterfall.gpa s' = Waterfall.gpa s := by
  rw [Waterfall.gpa, Waterfall.gpa, hc,
    filterMap_norm (fun c => (Course.average c).map Waterfall.gradePoint)
      (fun c c' h => by
        show (Course.average c).map Waterfall.gradePoint =
          (Course.average c').map Waterfall.gradePoint
        rw [average_congr c c' h])]

theorem studentEquiv_of_norm (gpaF : Student → Option PyFloat)
    (hgpa : ∀ t t' : Student,
      t'.courses = t.courses.map (fun q => (q.1, ⟨q.1, q.2.grades⟩)) →
      gpaF t' = gpaF t)
    (s s' : Student)
    (hc : s'.courses = s.courses.map fun q => (q.1, ⟨q.1, q.2.grades⟩)) :
    StudentEquiv gpaF s' s := by
  refine ⟨?_, ?_, hgpa s s' hc⟩
  · intro c
    rw [hc, dictGet?_normCourses]
    cases dictGet? s.courses c <;> simp
  · intro c ca cb hca hcb
    rw [hc, dictGet?_normCourses, hcb] at hca
    simp only [Option.map] at hca
    obtain rfl : ca = ⟨c, cb.grades⟩ := by injection hca.symm
    exact ⟨rfl, average_congr _ _ rfl⟩

theorem load_save_root (gm gm2 : GradeManager) (h : NodupKeys gm) :
    Root.load_json gm2 (.parsed (Root.save_json gm)) =
      (⟨gm.students.map fun p => (p.1, ⟨p.1, p.2.name,
          p.2.courses.map fun q => (q.1, ⟨q.1, q.2.grades⟩)⟩)⟩, none) := by
  have hred : Root.load_json gm2 (.parsed (Root.save_json gm)) =
      loadStudentsLoop Root.student_from_dict []
        (gm.students.map fun p => (p.1, Root.student_to_dict p.2)) := rfl
  rw [hred]
  rw [loadStudentsLoop_map Root.student_from_dict Root.student_to_dict
    (fun k s => ⟨k, s.name, s.courses.map fun q => (q.1, ⟨q.1, q.2.grades⟩)⟩)
    gm.students [] (fun p hp => from_dict_to_dict_root p.1 p.2 (h.2 p hp))
    (fun p _ => rfl) h.1]
  simp

theorem load_save_waterfall (gm gm2 : GradeManager) (h : NodupKeys gm) :
    Waterfall.load_json gm2 (.parsed (Waterfall.save_json gm)) =
      (⟨(List.insertionSort pyPairLe gm.students).map fun p =>
          (p.1, ⟨p.2.student_id, p.1,
            p.2.courses.map fun q => (q.1, ⟨q.1, q.2.grades⟩)⟩)⟩, none) := by
  have hred : Waterfall.load_json gm2 (.parsed (Waterfall.save_json gm)) =
      loadStudentsLoop Waterfall.student_from_dict []
        ((List.insertionSort pyPairLe gm.students).map
          fun p => (p.1, Waterfall.student_to_dict p.2)) := rfl
  have hperm : (List.insertionSort pyPairLe gm.students).Perm gm.students :=
    List.perm_insertionSort _ _
  have hnods : ((List.insertionSort pyPairLe gm.students).map Prod.fst).Nodup :=
    ((hperm.map Prod.fst).nodup_iff).mpr h.1
  rw [hred]
  rw [loadStudentsLoop_map Waterfall.student_from_dict Waterfall.student_to_dict
    (fun k s => ⟨s.student_id, k, s.courses.map fun q => (q.1, ⟨q.1, q.2.grades⟩)⟩)
    (List.insertionSort pyPairLe gm.students) []
    (fun p hp => from_dict_to_dict_waterfall p.1 p.2 (h.2 p (hperm.mem_iff.mp hp)))
    (fun p _ => rfl) hnods]
  simp

/-- Claim C1: save followed by load reproduces an equivalent roster in both
variants: the load succeeds, and the rebuilt roster has the same set of
student keys, for each student the same set of course names, for each course
the same grade sequence in the same order and the same computed average, and
the same GPA (under the variant's own GPA policy).  The hypothesis is the
dict-shape invariant every state built from Python dicts has: unique student
keys and unique course keys per student. -/
theorem C1_save_load_roundtrip (gm gm2 : GradeManager) (h : NodupKeys gm) :
    (Root.load_json gm2 (.parsed (Root.save_json gm))).2 = none ∧
    RosterEquiv Root.gpa (Root.load_json gm2 (.parsed (Root.save_json gm))).1 gm ∧
    (Waterfall.load_json gm2 (.parsed (Waterfall.save_json gm))).2 = none ∧
    RosterEquiv Waterfall.gpa
      (Waterfall.load_json gm2 (.parsed (Waterfall.save_json gm))).1 gm := by
  have hperm : (List.insertionSort pyPairLe gm.students).Perm gm.students :=
    List.perm_insertionSort _ _
  have hnods : ((List.insertionSort pyPairLe gm.students).map Prod.fst).Nodup :=
    ((hperm.map Prod.fst).nodup_iff).mpr h.1
  refine ⟨?_, ?_, ?_, ?_⟩
  · rw [load_save_root gm gm2 h]
  · rw [load_save_root gm gm2 h]
    refine ⟨?_, ?_⟩
    · intro k
      rw [dictGet?_normStudentsRoot]
      cases dictGet? gm.students k <;> simp
    · intro k sa sb hsa hsb
      rw [dictGet?_normStudentsRoot, hsb] at hsa
      simp only [Option.map] at hsa
      obtain rfl : sa = ⟨k, sb.name,
          sb.courses.map fun q => (q.1, ⟨q.1, q.2.grades⟩)⟩ := by injection hsa.symm
      exact studentEquiv_of_norm Root.gpa root_gpa_norm sb _ rfl
  · rw [load_save_waterfall gm gm2 h]
  · rw [load_save_waterfall gm gm2 h]
    have hlook : ∀ k, dictGet? (List.insertionSort pyPairLe gm.students) k =
        dictGet? gm.students k :=
      fun k => dictGet?_perm hperm
        (((hperm.map Prod.fst).nodup_iff).mpr h.1) k
    refine ⟨?_, ?_⟩
    · intro k
      rw [dictGet?_normStudentsWaterfall, hlook]
      cases dictGet? gm.students k <;> simp
    · intro k sa sb hsa hsb
      rw [dictGet?_normStudentsWaterfall, hlook, hsb] at hsa
      simp only [Option.map] at hsa
      obtain rfl : sa = ⟨sb.student_id, k,
          sb.courses.map fun q => (q.1, ⟨q.1, q.2.grades⟩)⟩ := by injection hsa.symm
      exact studentEquiv_of_norm Waterfall.gpa waterfall_gpa_norm sb _ rfl

/-- Claim C1 witness: the round trip at a concrete one-student roster. -/
theorem C1_save_load_roundtrip_witness :
    (Root.load_json ⟨[("1", ⟨"1", "Ada", [("Math", ⟨"Math", [.finite 90]⟩)]⟩)]⟩
      (.parsed (Root.save_json ⟨[("1", ⟨"1", "Ada",
        [("Math", ⟨"Math", [.finite 90]⟩)]⟩)]⟩))).2 = none ∧
    RosterEquiv Root.gpa
      (Root.load_json ⟨[("1", ⟨"1", "Ada", [("Math", ⟨"Math", [.finite 90]⟩)]⟩)]⟩
        (.parsed (Root.save_json ⟨[("1", ⟨"1", "Ada",
          [("Math", ⟨"Math", [.finite 90]⟩)]⟩)]⟩))).1
      ⟨[("1", ⟨"1", "Ada", [("Math", ⟨"Math", [.finite 90]⟩)]⟩)]⟩ ∧
    (Waterfall.load_json ⟨[("1", ⟨"1", "Ada", [("Math", ⟨"Math", [.finite 90]⟩)]⟩)]⟩
      (.parsed (Waterfall.save_json ⟨[("1", ⟨"1", "Ada",
        [("Math", ⟨"Math", [.finite 90]⟩)]⟩)]⟩))).2 = none ∧
    RosterEquiv Waterfall.gpa
      (Waterfall.load_json ⟨[("1", ⟨"1", "Ada", [("Math", ⟨"Math", [.finite 90]⟩)]⟩)]⟩
        (.parsed (Waterfall.save_json ⟨[("1", ⟨"1", "Ada",
          [("Math", ⟨"Math", [.finite 90]⟩)]⟩)]⟩))).1
      ⟨[("1", ⟨"1", "Ada", [("Math", ⟨"Math", [.finite 90]⟩)]⟩)]⟩ :=
  C1_save_load_roundtrip
    ⟨[("1", ⟨"1", "Ada", [("Math", ⟨"Math", [.finite 90]⟩)]⟩)]⟩
    ⟨[("1", ⟨"1", "Ada", [("Math", ⟨"Math", [.finite 90]⟩)]⟩)]⟩
    (by unfold NodupKeys; exact ⟨by decide, by decide⟩)
